import Mathlib

/-!
Verification development for the preview-pkg repository: a client-side
publish pipeline (dependency rewriting, packing, restoring, uploading) and a
server-side content-addressed package store.  The definitions below are a
shallow embedding of the TypeScript sources: the server route handlers from
the worker app, and the CLI publish command with its helper functions
(`writeDeps`, `hijackDeps`, `pack`, the five publish passes).
-/

namespace PreviewPkg

/-! ### Byte and string helpers -/

/-- Lowercase hex digit for a value below 16, as produced by
`Buffer.toString("hex")`. -/
def hexChar (n : Nat) : Char :=
  if n < 10 then Char.ofNat (48 + n) else Char.ofNat (87 + n)

/-- Two lowercase hex digits of one byte. -/
def byteToHex (b : Nat) : List Char :=
  [hexChar (b / 16 % 16), hexChar (b % 16)]

/-- Hex rendering of a byte sequence, as `Buffer.from(x).toString("hex")`. -/
def bytesToHex (bs : List Nat) : String :=
  ⟨bs.foldr (fun b acc => byteToHex b ++ acc) []⟩

/-- Model of `s.replace(pat, rep)` for a single-character pattern: JavaScript
`String.prototype.replace` with a string pattern replaces only the first
occurrence. -/
def replaceFirstChar : List Char → Char → List Char → List Char
  | [], _, _ => []
  | c :: cs, t, rep => if c = t then rep ++ cs else c :: replaceFirstChar cs t rep

/-- Character class of the server's `LowercaseAlphaNumericWithDashRegex`,
`/^[a-z0-9-]+$/`. -/
def isLowerAlphaNumDash (c : Char) : Bool :=
  (('a' ≤ c) && (c ≤ 'z')) || (('0' ≤ c) && (c ≤ '9')) || (c == '-')

/-- Character class of the server's `MixedCaseAlphaNumericWithDashRegex`,
`/^[a-zA-Z0-9-]+$/`. -/
def isMixedAlphaNumDash (c : Char) : Bool :=
  (('a' ≤ c) && (c ≤ 'z')) || (('A' ≤ c) && (c ≤ 'Z')) ||
    (('0' ≤ c) && (c ≤ '9')) || (c == '-')

/-- Validity of an `org`/`packageName`/`version` segment per the worker's
`PackageInfo` schema: non-empty, at most 32 characters, lowercase
alphanumeric plus dash. -/
def ValidSegment (s : String) : Prop :=
  s ≠ "" ∧ s.length ≤ 32 ∧ ∀ c ∈ s.data, isLowerAlphaNumDash c = true

/-- Validity of a username per the worker's `GithubUsername` schema:
non-empty, at most 39 characters, mixed-case alphanumeric plus dash. -/
def ValidUsername (s : String) : Prop :=
  s ≠ "" ∧ s.length ≤ 39 ∧ ∀ c ∈ s.data, isMixedAlphaNumDash c = true

instance (s : String) : Decidable (ValidSegment s) := by
  unfold ValidSegment; infer_instance

instance (s : String) : Decidable (ValidUsername s) := by
  unfold ValidUsername; infer_instance

/-! ### Server: storage key and store model (worker `app.ts`) -/

/-- The worker's `storageKey` function:
`preview-pkg/${username}/${org ? "@"+org+"__"+packageName : packageName}@${version}`. -/
def storageKey (username : String) (org : Option String)
    (packageName version : String) : String :=
  "preview-pkg/" ++ username ++ "/" ++
    (match org with
     | some o => "@" ++ o ++ "__" ++ packageName
     | none => packageName) ++ "@" ++ version

/-- A stored object in the R2 bucket: body bytes, the recorded sha256
checksum (absent for objects stored without one), and the custom metadata
the upload handler attaches. -/
structure R2Object where
  body : List Nat
  sha256 : Option (List Nat)
  orgMeta : String
  packageNameMeta : String
  versionMeta : String
deriving DecidableEq

/-- The R2 bucket, modelled as an association list from storage key to
object. -/
abbrev Store := List (String × R2Object)

/-- Model of `STORAGE.head` and of the lookup part of `STORAGE.get`. -/
def storeFind (s : Store) (k : String) : Option R2Object :=
  (s.find? (fun e => e.1 == k)).map (fun e => e.2)

/-- Model of `STORAGE.put` on R2: unconditional write, overwriting any existing
object at the key. -/
def storePut (s : Store) (k : String) (o : R2Object) : Store :=
  (s.filter (fun e => !(e.1 == k))) ++ [(k, o)]

/-- Every object in the store carries a recorded sha256 checksum.  All
objects created through the upload handler satisfy this. -/
def StoreWF (s : Store) : Prop := ∀ e ∈ s, e.2.sha256.isSome = true

instance (s : Store) : Decidable (StoreWF s) := by
  unfold StoreWF; exact List.decidableBAll _ s

/-! ### Server: GET handler (fetch boundary) -/

inductive GetResp
  | notFound
  | ok (body : List Nat) (contentType : String)
deriving DecidableEq

/-- The worker's `app.get("/:username/:package")` handler: `head` the key
(404 when absent), `get` the key (404 when absent), else 200 with the body
and a `application/tar+gzip` content type.  The stored checksum metadata is
not consulted. -/
def handleGet (store : Store) (username : String) (org : Option String)
    (packageName version : String) : GetResp :=
  let packageKey := storageKey username org packageName version
  match storeFind store packageKey with
  | none => .notFound
  | some _ =>
    match storeFind store packageKey with
    | none => .notFound
    | some packageBody => .ok packageBody.body "application/tar+gzip"

/-! ### Server: POST handler (upload boundary) -/

inductive PostResp
  | badRequest (msg : String)
  | unauthorized (msg : String)
  | conflict (msg : String) (sha256Hex : String)
  | serverError (msg : String)
  | created (msg : String)
deriving DecidableEq

/-- The form validator of the upload route: tarball at most
`1024 * 1024 * 10` bytes, sha256 field exactly 64 characters. -/
def validForm (tarballLen : Nat) (sha256Field : String) : Bool :=
  decide (tarballLen ≤ 1024 * 1024 * 10) && (sha256Field.length == 64)

/-- The conflict message the handler builds:
`Package ${org ? "@"+org+"/" : ""}${packageName}@${version} already exists`. -/
def conflictMsg (org : Option String) (packageName version : String) : String :=
  "Package " ++
    (match org with | some o => "@" ++ o ++ "/" | none => "") ++
    packageName ++ "@" ++ version ++ " already exists"

/-- The `STORAGE.put` call of the upload handler with the `sha256` option:
R2 verifies the digest of the received bytes against the supplied hex
string, failing with an error mentioning SHA-256 (mapped to a 400) on
mismatch; on success the object is stored with the checksum recorded and
the coordinate metadata attached. -/
def putObject (sha256Of : List Nat → List Nat) (store : Store)
    (packageKey : String) (org : Option String) (packageName version : String)
    (tarball : List Nat) (sha256Field : String) : PostResp × Store :=
  if bytesToHex (sha256Of tarball) == sha256Field then
    (.created "Package created",
      storePut store packageKey
        ⟨tarball, some (sha256Of tarball), org.getD "", packageName, version⟩)
  else
    (.badRequest "Invalid SHA-256 checksum", store)

/-- The worker's `app.post("/:username/:package")` handler after parameter
validation: form validation (400), GitHub identity check (401), existence
probe via `head` — a 409 conflict carrying the recorded checksum in hex
whenever an object with a recorded checksum already sits at the key — and
otherwise the checksum-verified `put`. -/
def handlePost (sha256Of : List Nat → List Nat) (authLogin username : String)
    (org : Option String) (packageName version : String)
    (tarball : List Nat) (sha256Field : String) (store : Store) :
    PostResp × Store :=
  if !(validForm tarball.length sha256Field) then
    (.badRequest "Invalid package format", store)
  else if !(authLogin == username) then
    (.unauthorized
      ("Unauthorized: You are trying to publish a package for " ++ username ++
        " but you are logged in as " ++ authLogin), store)
  else
    let packageKey := storageKey username org packageName version
    match storeFind store packageKey with
    | some existingPackage =>
      match existingPackage.sha256 with
      | some cs =>
        (.conflict (conflictMsg org packageName version) (bytesToHex cs), store)
      | none =>
        putObject sha256Of store packageKey org packageName version tarball sha256Field
    | none =>
      putObject sha256Of store packageKey org packageName version tarball sha256Field

/-! ### CLI: package manifests and the dependency rewriter (`cli.ts`) -/

/-- The `PackageJson` shape the CLI reads; dependency records are modelled
as association lists preserving JSON object key order. -/
structure PackageJson where
  name : Option String
  version : Option String
  «private» : Option Bool
  dependencies : Option (List (String × String))
  devDependencies : Option (List (String × String))
  optionalDependencies : Option (List (String × String))
  peerDependencies : Option (List (String × String))
deriving DecidableEq

/-- JavaScript `Map.get`. -/
def mapGet (m : List (String × String)) (k : String) : Option String :=
  (m.find? (fun e => e.1 == k)).map (fun e => e.2)

/-- JavaScript `Map.set`: updates the value in place when the key is
present, appends otherwise. -/
def mapSet (m : List (String × String)) (k v : String) : List (String × String) :=
  if m.any (fun e => e.1 == k) then
    m.map (fun e => if e.1 == k then (e.1, v) else e)
  else
    m ++ [(k, v)]

/-- One iteration of the loop inside `hijackDeps`:
`if (newDep in oldDeps) oldDeps[newDep] = url` — the value is updated in
place, nothing is ever added. -/
def hijackEntry (oldDeps : List (String × String)) (newDep url : String) :
    List (String × String) :=
  if oldDeps.any (fun e => e.1 == newDep) then
    oldDeps.map (fun e => if e.1 == newDep then (e.1, url) else e)
  else
    oldDeps

/-- The CLI's `hijackDeps(newDeps, oldDeps)`: iterates the dependency map in
insertion order, redirecting every dependency of `oldDeps` whose name is a
key of the map; `undefined` dependency classes are left untouched. -/
def hijackDeps (newDeps : List (String × String)) :
    Option (List (String × String)) → Option (List (String × String))
  | none => none
  | some oldDeps =>
    some (newDeps.foldl (fun acc kv => hijackEntry acc kv.1 kv.2) oldDeps)

/-- The manifest mutation performed by `writeDeps` before it writes the
file: `hijackDeps` on `dependencies`, `devDependencies` and
`optionalDependencies`; `peerDependencies` is not touched. -/
def rewriteManifest (pJson : PackageJson) (deps : List (String × String)) :
    PackageJson :=
  { pJson with
    dependencies := hijackDeps deps pJson.dependencies
    devDependencies := hijackDeps deps pJson.devDependencies
    optionalDependencies := hijackDeps deps pJson.optionalDependencies }

/-- A write to the filesystem, modelled as updating a total map from path
to file content. -/
def writeFileFS (fs : String → String) (path content : String) :
    String → String :=
  fun p => if p == path then content else fs p

/-- The CLI's `writeDeps(pJsonPath, originalContents, pJson, deps)`:
mutates the parsed manifest, writes its serialization
(`JSON.stringify(pJson, null, 2)`, abstracted as `stringify`) to the file,
and returns a restore closure that writes `originalContents` back,
verbatim. -/
def writeDeps (stringify : PackageJson → String) (fs : String → String)
    (pJsonPath originalContents : String) (pJson : PackageJson)
    (deps : List (String × String)) :
    (String → String) × ((String → String) → (String → String)) :=
  let pJsonMutated := rewriteManifest pJson deps
  (writeFileFS fs pJsonPath (stringify pJsonMutated),
   fun fsNow => writeFileFS fsNow pJsonPath originalContents)

/-! ### CLI: packer adapter (`pack`) -/

inductive PackageManager
  | pnpm
  | bun
  | yarn
  | npm
deriving DecidableEq

/-- The command name of a package manager, as passed to `x(...)`. -/
def pmName : PackageManager → String
  | .pnpm => "pnpm"
  | .bun => "bun"
  | .yarn => "yarn"
  | .npm => "npm"

/-- The per-tool argument adapter inside `pack`: `["pack"]`, with `pm`
prepended for bun and `--filename <id>.tgz` appended for yarn. -/
def packArgs (pm : PackageManager) (packageIdentifier : String) : List String :=
  let base := ["pack"]
  let base := if pm == .bun then "pm" :: base else base
  if pm == .yarn then base ++ ["--filename", packageIdentifier ++ ".tgz"] else base

/-- Result of one external command invocation via `x(...)`. -/
structure ExecResult where
  exitCode : Int
  stdout : String
  stderr : String
deriving DecidableEq

/-- The exceptions `pack` can propagate: the explicit packing failure it
throws on nonzero exit, the unhandled rejection of `stat(filename)` when
the expected output file is absent, and the explicit
invariant-violation error of its dead `!file` branch. -/
inductive PackError
  | packingFailed (msg : String)
  | statEnoent
  | invariantViolation
deriving DecidableEq

/-- Successful pack result: `{ filename, file, sha256, size, output }`. -/
structure PackSuccess where
  filename : String
  file : List Nat
  sha256 : String
  size : Nat
  output : String
deriving DecidableEq

/-- The CLI's `pack` function.  `readFileRes` is the result of
`readFile(filename).catch(() => null)` and `statRes` the result of
`stat(filename)` (`none` meaning the promise rejects, which `pack` does not
catch).  On nonzero exit it throws
`Failed to pack ${cwd} with ${packageManager}:\n${output}`; after that it
reads the file, `stat`s it, and only then checks the `!file` branch with
its `Pack command returned success but no output file was found` error. -/
def pack (sha256Hex : List Nat → String) (pm : PackageManager)
    (cwd packageIdentifier : String) (res : ExecResult)
    (readFileRes : Option (List Nat)) (statRes : Option Nat) :
    Except PackError PackSuccess :=
  let output := (res.stdout ++ res.stderr).trim
  if res.exitCode ≠ 0 then
    .error (.packingFailed
      ("Failed to pack " ++ cwd ++ " with " ++ pmName pm ++
        (if output ≠ "" then ":\n" ++ output else "")))
  else
    let filename := cwd ++ "/" ++ packageIdentifier ++ ".tgz"
    match statRes with
    | none => .error .statEnoent
    | some size =>
      match readFileRes with
      | none => .error .invariantViolation
      | some file => .ok ⟨filename, file, sha256Hex file, size, output⟩

/-! ### CLI: publish orchestrator (`publish` mutation) -/

/-- The default API base URL baked into the build. -/
def apiUrlBase : String := "https://pkg.rx2.dev"

/-- The package URL built in PASS 1:
`${API_URL_BASE}/${username}/${name}@${publishingVersion}`. -/
def mkPackageUrl (base username name publishingVersion : String) : String :=
  base ++ "/" ++ username ++ "/" ++ name ++ "@" ++ publishingVersion

/-- The skip checks of PASS 1, in source order: no parsed manifest, no
`name`, `private` set, no `version`.  Returns the package name when the
candidate survives. -/
def survivingPackage : Option PackageJson → Option (String × PackageJson)
  | none => none
  | some pJson =>
    match pJson.name with
    | none => none
    | some name =>
      if pJson.«private».getD false then none
      else
        match pJson.version with
        | none => none
        | some _ => some (name, pJson)

/-- One iteration of the PASS 1 loop: skip a non-surviving candidate, else
push `{path, pJson}` onto `packageInfos` and run
`deps.set(pJson.name, packageUrl)`. -/
def pass1Step (base username publishingVersion : String)
    (acc : List (String × PackageJson) × List (String × String))
    (c : String × Option PackageJson) :
    List (String × PackageJson) × List (String × String) :=
  match survivingPackage c.2 with
  | none => acc
  | some np =>
    (acc.1 ++ [(c.1, np.2)],
     mapSet acc.2 np.1 (mkPackageUrl base username np.1 publishingVersion))

/-- PASS 1: walk the candidate directories in order, collect the surviving
`(path, pJson)` pairs and build the dependency map with
`deps.set(pJson.name, packageUrl)` — `Map.set` overwrites, so a duplicate
name keeps the URL from the candidate discovered last. -/
def pass1 (base username publishingVersion : String)
    (candidates : List (String × Option PackageJson)) :
    List (String × PackageJson) × List (String × String) :=
  candidates.foldl (pass1Step base username publishingVersion) ([], [])

/-- The package identifier built in PASS 3:
`name.replace("@", "").replace("/", "-") + "-" + version` (JavaScript
`replace` with a string pattern replaces only the first occurrence). -/
def packageIdentifierOf (name version : String) : String :=
  ⟨replaceFirstChar (replaceFirstChar name.data '@' []) '/' ['-']⟩ ++ "-" ++ version

/-- Observable filesystem / network events of one publish run, in order. -/
inductive Event
  | mutate (path : String)
  | packOk (path : String)
  | packFail (path : String)
  | restore (path : String)
  | upload (path : String)
deriving DecidableEq

/-- Classification of one upload response in PASS 5. -/
inductive UploadStatus
  | success
  | exists
  | error
deriving DecidableEq

/-- An upload HTTP response, with its body abstracted to the outcome of the
valibot parse: `none` when the body fails to parse, otherwise the optional
`sha256` field of the parsed object. -/
structure UploadHttp where
  status : Nat
  parsed : Option (Option String)
deriving DecidableEq

/-- The response classification of PASS 5: parse failure is an error; a 409
whose body carries a `sha256` field is `exists` on checksum match and an
error (version conflict) on mismatch; any other non-2xx response is an
error; a 2xx response is success. -/
def classifyUpload (packSha : String) (r : UploadHttp) : UploadStatus :=
  match r.parsed with
  | none => .error
  | some msha =>
    if r.status == 409 && msha.isSome then
      if msha == some packSha then .exists else .error
    else if 200 ≤ r.status && r.status ≤ 299 then .success else .error

/-- Stored GitHub credentials. -/
structure Credentials where
  token : String
deriving DecidableEq

/-- The environment one publish run interacts with: stored credentials, the
`git rev-parse HEAD` result, the authenticated username, the candidate
directories with their parsed manifests, the manifest filesystem, the
packer invocation results, the tgz filesystem, the JSON serializer, the
sha256 digest, and the upload responses. -/
structure PublishEnv where
  credentials : Option Credentials
  explicitVersion : Option String
  gitRevParse : ExecResult
  username : String
  packer : PackageManager
  candidates : List (String × Option PackageJson)
  fs : String → String
  packExec : String → ExecResult
  readFileAt : String → Option (List Nat)
  statAt : String → Option Nat
  stringify : PackageJson → String
  sha256Hex : List Nat → String
  uploadAt : String → UploadHttp

/-- How one publish run ends. -/
inductive RunOutcome
  | authRequired
  | versionFailed
  | noPackages
  | crashed (e : PackError)
  | completed (results : List (String × UploadStatus))

/-- Observable result of one publish run: the event trace, the final
manifest filesystem, the outcome, and the publishing version that was
resolved (when resolution was reached and succeeded). -/
structure RunResult where
  trace : List Event
  fs : String → String
  outcome : RunOutcome
  version : Option String

/-- PASS 3 with the source's exception semantics: `pack` is awaited inside
the plain `for` loop, so the first `pack` throw aborts the loop — and with
it the whole `publish` mutation, since nothing catches it. -/
def pass3 (env : PublishEnv) :
    List (String × PackageJson) →
    List Event × Except PackError (List (String × PackageJson × PackSuccess))
  | [] => ([], .ok [])
  | info :: rest =>
    let packageIdentifier :=
      packageIdentifierOf (info.2.name.getD "") (info.2.version.getD "")
    let filename := info.1 ++ "/" ++ packageIdentifier ++ ".tgz"
    match pack env.sha256Hex env.packer info.1 packageIdentifier
        (env.packExec info.1) (env.readFileAt filename) (env.statAt filename) with
    | .error e => ([.packFail info.1], .error e)
    | .ok r =>
      let tail := pass3 env rest
      (.packOk info.1 :: tail.1, tail.2.map (fun l => (info.1, info.2, r) :: l))

/-- The CLI's `publish` mutation: credentials check, version resolution
(`git rev-parse HEAD` short hash when no `--version` is given, aborting the
run on failure), PASS 1 discovery and dependency-map construction, PASS 2
manifest mutation with captured originals, PASS 3 packing (uncaught throw
on failure), PASS 4 restoration, PASS 5 upload and classification. -/
def publishRun (env : PublishEnv) : RunResult :=
  match env.credentials with
  | none => ⟨[], env.fs, .authRequired, none⟩
  | some _ =>
    let versionRes : Option String :=
      match env.explicitVersion with
      | some ver => some ver
      | none =>
        if env.gitRevParse.exitCode ≠ 0 then none
        else some ((env.gitRevParse.stdout.trim).take 7)
    match versionRes with
    | none => ⟨[], env.fs, .versionFailed, none⟩
    | some publishingVersion =>
      let p1 := pass1 apiUrlBase env.username publishingVersion env.candidates
      let packageInfos := p1.1
      let deps := p1.2
      if packageInfos.isEmpty then
        ⟨[], env.fs, .noPackages, some publishingVersion⟩
      else
        -- PASS 2: mutate every manifest, recording a restore closure.
        let p2 := packageInfos.foldl
          (fun (acc : (String → String) ×
              List (String × ((String → String) → String → String)) ×
              List Event) info =>
            let pJsonPath := info.1 ++ "/package.json"
            let originalContents := acc.1 pJsonPath
            let wd := writeDeps env.stringify acc.1 pJsonPath originalContents
              info.2 deps
            (wd.1, acc.2.1 ++ [(info.1, wd.2)], acc.2.2 ++ [.mutate info.1]))
          (env.fs, [], [])
        let fsMutated := p2.1
        let restoreMap := p2.2.1
        let mutateEvents := p2.2.2
        -- PASS 3: pack; an uncaught throw aborts the run here.
        let p3 := pass3 env packageInfos
        match p3.2 with
        | .error e =>
          ⟨mutateEvents ++ p3.1, fsMutated, .crashed e, some publishingVersion⟩
        | .ok packedPackages =>
          -- PASS 4: run every recorded restore closure, in insertion order.
          let p4 := restoreMap.foldl
            (fun (acc : (String → String) × List Event) entry =>
              (entry.2 acc.1, acc.2 ++ [.restore entry.1]))
            (fsMutated, [])
          -- PASS 5: upload every packed package and classify the response.
          let p5 := packedPackages.foldl
            (fun (acc : List (String × UploadStatus) × List Event) pp =>
              let packageUrl := (mapGet deps (pp.2.1.name.getD "")).getD ""
              let status := classifyUpload pp.2.2.sha256 (env.uploadAt packageUrl)
              (acc.1 ++ [(pp.1, status)], acc.2 ++ [.upload pp.1]))
            ([], [])
          ⟨mutateEvents ++ p3.1 ++ p4.2 ++ p5.2, p4.1,
            .completed p5.1, some publishingVersion⟩

/-! ### Spec-side declarative definition (for the rewrite refinement) -/

/-- Declarative form of one dependency-class rewrite, following the spec's
words: replace the version string of any dependency whose name is a key in
the dependency map with the mapped URL, leaving the others untouched. -/
def specRewriteClass (deps : List (String × String)) :
    Option (List (String × String)) → Option (List (String × String)) :=
  Option.map (List.map (fun e => (e.1, (mapGet deps e.1).getD e.2)))

/-- The effect of one PASS 1 iteration on the dependency map alone. -/
def depsStep (base user ver : String) (m : List (String × String))
    (c : String × Option PackageJson) : List (String × String) :=
  match survivingPackage c.2 with
  | none => m
  | some np => mapSet m np.1 (mkPackageUrl base user np.1 ver)

/-! ### Concrete fixtures used by the closed theorems and witnesses -/

/-- A 64-character sha256 form field. -/
def sha64zeros : String :=
  "0000000000000000000000000000000000000000000000000000000000000000"

/-- A stored object with a recorded checksum (byte `0xab`). -/
def obj0 : R2Object := ⟨[9], some [171], "", "pkg", "1"⟩

/-- A one-object store whose object has its checksum recorded. -/
def store0 : Store := [(storageKey "alice" none "pkg" "1", obj0)]

/-- A stored object whose checksum metadata is missing. -/
def objNoChecksum : R2Object := ⟨[1, 2, 3], none, "", "p", "1"⟩

/-- A one-object store whose object lacks checksum metadata. -/
def storeNoChecksum : Store := [(storageKey "u" none "p" "1", objNoChecksum)]

/-- A three-package publish environment in which packing the second package
exits nonzero while the other two would pack fine. -/
def envPackFail : PublishEnv where
  credentials := some ⟨"tok"⟩
  explicitVersion := some "v1"
  gitRevParse := ⟨0, "", ""⟩
  username := "alice"
  packer := .npm
  candidates :=
    [("a", some ⟨some "pa", some "1.0.0", none, some [("pb", "workspace:*")],
        none, none, none⟩),
     ("b", some ⟨some "pb", some "1.0.0", none, none, none, none, none⟩),
     ("c", some ⟨some "pc", some "1.0.0", none, none, none, none, none⟩)]
  fs := fun _ => "ORIGINAL"
  packExec := fun p => if p == "b" then ⟨1, "", "boom"⟩ else ⟨0, "", ""⟩
  readFileAt := fun f => if f == "a/pa-1.0.0.tgz" then some [1] else none
  statAt := fun f => if f == "a/pa-1.0.0.tgz" then some 1 else none
  stringify := fun _ => "MUTATED"
  sha256Hex := fun _ => "deadbeef"
  uploadAt := fun _ => ⟨201, some none⟩

/-- A publish environment with no explicit version whose
`git rev-parse HEAD` fails. -/
def envGitFail : PublishEnv where
  credentials := some ⟨"tok"⟩
  explicitVersion := none
  gitRevParse := ⟨128, "", "fatal: not a git repository"⟩
  username := "alice"
  packer := .npm
  candidates := [("a", some ⟨some "pa", some "1.0.0", none, none, none, none, none⟩)]
  fs := fun _ => "ORIGINAL"
  packExec := fun _ => ⟨0, "", ""⟩
  readFileAt := fun _ => none
  statAt := fun _ => none
  stringify := fun _ => "MUTATED"
  sha256Hex := fun _ => "deadbeef"
  uploadAt := fun _ => ⟨201, some none⟩

/-- The same environment with a succeeding `git rev-parse HEAD`. -/
def envGitOk : PublishEnv :=
  { envGitFail with gitRevParse := ⟨0, "abcdef1234567890", ""⟩ }

/-- A dependency map fixture. -/
def cDeps : List (String × String) := [("pb", "https://pkg.rx2.dev/alice/pb@v1")]

/-- A manifest fixture with all four dependency classes populated. -/
def cPJson : PackageJson :=
  ⟨some "pa", some "1.0.0", none,
   some [("pb", "workspace:*"), ("x", "^1.0.0")],
   some [("pb", "workspace:~")],
   some [("pb", "workspace:^")],
   some [("pb", "workspace:peer")]⟩

/-- Two discovered candidates sharing the package name `dup`. -/
def dupCand1 : String × Option PackageJson :=
  ("p1", some ⟨some "dup", some "1.0.0", none, none, none, none, none⟩)

/-- The later of the two candidates sharing the name `dup`. -/
def dupCand2 : String × Option PackageJson :=
  ("p2", some ⟨some "dup", some "2.0.0", none, none, none, none, none⟩)

/-! ### Helper lemmas -/

lemma append_slash_inj : ∀ (A B x y : List Char), '/' ∉ A → '/' ∉ B →
    A ++ '/' :: x = B ++ '/' :: y → A = B ∧ x = y := by
  intro A
  induction A with
  | nil =>
    intro B x y _ hB h
    cases B with
    | nil => simp_all
    | cons b bs =>
      simp only [List.nil_append, List.cons_append, List.cons.injEq] at h
      exact absurd (h.1 ▸ List.mem_cons_self b bs) (by simp_all)
  | cons a as ih =>
    intro B x y hA hB h
    cases B with
    | nil =>
      simp only [List.cons_append, List.nil_append, List.cons.injEq] at h
      exact absurd (h.1 ▸ List.mem_cons_self a as) (by simp_all)
    | cons b bs =>
      simp only [List.cons_append, List.cons.injEq] at h
      have hr := ih bs x y (fun hm => hA (List.mem_cons_of_mem a hm))
        (fun hm => hB (List.mem_cons_of_mem b hm)) h.2
      exact ⟨by rw [h.1, hr.1], hr.2⟩

lemma username_no_slash {u : String} (h : ValidUsername u) : '/' ∉ u.data := by
  intro hmem
  exact absurd (h.2.2 _ hmem) (by decide)

lemma hijackEntry_eq_map (old : List (String × String)) (k url : String) :
    hijackEntry old k url
      = old.map (fun e => if e.1 == k then (e.1, url) else e) := by
  unfold hijackEntry
  split
  · rfl
  · next h =>
    have hmap : old.map (fun e => if e.1 == k then (e.1, url) else e)
        = old.map id := by
      apply List.map_congr_left
      intro e he
      have hne : (e.1 == k) = false := by
        cases hbe : (e.1 == k) with
        | false => rfl
        | true => exact absurd (List.any_eq_true.mpr ⟨e, he, hbe⟩) h
      simp [hne]
    exact (hmap.trans (List.map_id old)).symm

lemma mapGet_cons (k u n : String) (rest : List (String × String)) :
    mapGet ((k, u) :: rest) n = if k == n then some u else mapGet rest n := by
  cases h : (k == n) <;> simp [mapGet, List.find?_cons, h]

lemma mapGet_cons2 (e : String × String) (l : List (String × String)) (n : String) :
    mapGet (e :: l) n = if e.1 == n then some e.2 else mapGet l n := by
  cases h : (e.1 == n) <;> simp [mapGet, List.find?_cons, h]

lemma mapGet_eq_none_of_not_mem {m : List (String × String)} {k : String}
    (h : k ∉ m.map Prod.fst) : mapGet m k = none := by
  simp only [mapGet, Option.map_eq_none']
  rw [List.find?_eq_none]
  intro e he hbeq
  exact h (List.mem_map.mpr ⟨e, he, beq_iff_eq.mp hbeq⟩)

lemma hijack_foldl (deps : List (String × String)) :
    ∀ old : List (String × String), (deps.map Prod.fst).Nodup →
    deps.foldl (fun acc kv => hijackEntry acc kv.1 kv.2) old
      = old.map (fun e => (e.1, (mapGet deps e.1).getD e.2)) := by
  induction deps with
  | nil =>
    intro old _
    simp [mapGet]
  | cons kv rest ih =>
    obtain ⟨k, u⟩ := kv
    intro old hnd
    rw [List.map_cons, List.nodup_cons] at hnd
    obtain ⟨hk, hrest⟩ := hnd
    simp only [List.foldl_cons]
    rw [ih _ hrest, hijackEntry_eq_map, List.map_map]
    apply List.map_congr_left
    intro e _
    simp only [Function.comp]
    by_cases hek : e.1 = k
    · simp only [hek, beq_self_eq_true, if_true, mapGet_cons]
      rw [mapGet_eq_none_of_not_mem hk]
      rfl
    · have hbk : (e.1 == k) = false := by simp [hek]
      have hke : (k == e.1) = false := by
        refine beq_eq_false_iff_ne.mpr ?_
        exact fun hh => hek hh.symm
      simp [hbk, mapGet_cons, hke]

lemma hijackDeps_eq_spec (deps : List (String × String))
    (o : Option (List (String × String))) (h : (deps.map Prod.fst).Nodup) :
    hijackDeps deps o = specRewriteClass deps o := by
  cases o with
  | none => rfl
  | some old => simp [hijackDeps, specRewriteClass, hijack_foldl deps old h]

lemma foldl_snd_comm {α β γ : Type} (f : β × γ → α → β × γ) (g : γ → α → γ)
    (hfg : ∀ acc c, (f acc c).2 = g acc.2 c) :
    ∀ (cs : List α) (acc : β × γ), (cs.foldl f acc).2 = cs.foldl g acc.2 := by
  intro cs
  induction cs with
  | nil => intro acc; rfl
  | cons c rest ih =>
    intro acc
    simp only [List.foldl_cons]
    rw [ih (f acc c), hfg]

lemma pass1Step_snd (base user ver : String)
    (acc : List (String × PackageJson) × List (String × String))
    (c : String × Option PackageJson) :
    (pass1Step base user ver acc c).2 = depsStep base user ver acc.2 c := by
  cases h : survivingPackage c.2 <;> simp [pass1Step, depsStep, h]

lemma pass1_snd (base user ver : String)
    (cs : List (String × Option PackageJson)) :
    (pass1 base user ver cs).2 = cs.foldl (depsStep base user ver) [] :=
  foldl_snd_comm _ _ (pass1Step_snd base user ver) cs ([], [])

lemma mapGet_updateMap_self (m : List (String × String)) (k v : String)
    (h : m.any (fun e => e.1 == k) = true) :
    mapGet (m.map (fun e => if e.1 == k then (e.1, v) else e)) k = some v := by
  induction m with
  | nil => simp at h
  | cons e rest ih =>
    cases he : (e.1 == k) with
    | true =>
      have he1 : e.1 = k := beq_iff_eq.mp he
      simp [mapGet_cons2, he1]
    | false =>
      have hr : rest.any (fun e => e.1 == k) = true := by
        rcases List.any_eq_true.mp h with ⟨x, hx, hbx⟩
        rcases List.mem_cons.mp hx with rfl | hx2
        · exact absurd hbx (by simp [he])
        · exact List.any_eq_true.mpr ⟨x, hx2, hbx⟩
      simp only [List.map_cons, he, if_false, Bool.false_eq_true]
      rw [mapGet_cons2]
      simp only [he, if_false, Bool.false_eq_true]
      exact ih hr

lemma mapGet_append_single_self (m : List (String × String)) (k v : String)
    (h : ¬ m.any (fun e => e.1 == k) = true) :
    mapGet (m ++ [(k, v)]) k = some v := by
  induction m with
  | nil => simp [mapGet_cons2]
  | cons e rest ih =>
    have he : (e.1 == k) = false := by
      cases hbe : (e.1 == k) with
      | false => rfl
      | true =>
        exact absurd (List.any_eq_true.mpr ⟨e, List.mem_cons_self e rest, hbe⟩) h
    have hr : ¬ rest.any (fun e => e.1 == k) = true := by
      intro hx
      rcases List.any_eq_true.mp hx with ⟨x, hx2, hbx⟩
      exact h (List.any_eq_true.mpr ⟨x, List.mem_cons_of_mem e hx2, hbx⟩)
    rw [List.cons_append, mapGet_cons2]
    simp only [he, if_false, Bool.false_eq_true]
    exact ih hr

lemma mapGet_updateMap_ne (m : List (String × String)) (k v k2 : String)
    (h : k2 ≠ k) :
    mapGet (m.map (fun e => if e.1 == k then (e.1, v) else e)) k2
      = mapGet m k2 := by
  induction m with
  | nil => rfl
  | cons e rest ih =>
    cases he : (e.1 == k) with
    | true =>
      have he1 : e.1 = k := beq_iff_eq.mp he
      have he2 : (e.1 == k2) = false := by
        rw [he1]
        exact beq_eq_false_iff_ne.mpr (fun hh => h hh.symm)
      simp only [List.map_cons, he, if_true]
      rw [mapGet_cons2, mapGet_cons2]
      simp only [he2, if_false, Bool.false_eq_true]
      exact ih
    | false =>
      simp only [List.map_cons, he, if_false, Bool.false_eq_true]
      rw [mapGet_cons2, mapGet_cons2]
      cases he2 : (e.1 == k2) with
      | true => simp [he2]
      | false => simp only [he2, if_false, Bool.false_eq_true]; exact ih

lemma mapGet_append_single_ne (m : List (String × String)) (k v k2 : String)
    (h : k2 ≠ k) :
    mapGet (m ++ [(k, v)]) k2 = mapGet m k2 := by
  induction m with
  | nil =>
    have hk : (k == k2) = false := beq_eq_false_iff_ne.mpr (fun hh => h hh.symm)
    simp [mapGet_cons2, hk, mapGet]
  | cons e rest ih =>
    rw [List.cons_append, mapGet_cons2, mapGet_cons2]
    cases he2 : (e.1 == k2) with
    | true => simp [he2]
    | false => simp only [he2, if_false, Bool.false_eq_true]; exact ih

lemma mapGet_mapSet_self (m : List (String × String)) (k v : String) :
    mapGet (mapSet m k v) k = some v := by
  unfold mapSet
  split
  · next h => exact mapGet_updateMap_self m k v h
  · next h => exact mapGet_append_single_self m k v h

lemma mapGet_mapSet_ne (m : List (String × String)) (k v k2 : String)
    (h : k2 ≠ k) : mapGet (mapSet m k v) k2 = mapGet m k2 := by
  unfold mapSet
  split
  · exact mapGet_updateMap_ne m k v k2 h
  · exact mapGet_append_single_ne m k v k2 h

lemma depsStep_preserve (base user ver name : String)
    (post : List (String × Option PackageJson))
    (hpost : ∀ c2 ∈ post, ∀ np : String × PackageJson,
      survivingPackage c2.2 = some np → np.1 ≠ name) :
    ∀ m, mapGet (post.foldl (depsStep base user ver) m) name = mapGet m name := by
  induction post with
  | nil => intro m; rfl
  | cons c rest ih =>
    intro m
    simp only [List.foldl_cons]
    have hrest := fun c2 hc2 => hpost c2 (List.mem_cons_of_mem c hc2)
    rw [ih hrest]
    cases h : survivingPackage c.2 with
    | none => simp [depsStep, h]
    | some np =>
      have hne := hpost c (List.mem_cons_self c rest) np h
      simp only [depsStep, h]
      exact mapGet_mapSet_ne m np.1 _ name (fun hh => hne hh.symm)

/-! ### Claim theorems -/

/-- C1 (code bug): in the shipped CLI a nonzero pack exit makes `pack` throw
and nothing catches it, so with three packages of which the second fails to
pack, the run stops inside PASS 3: no restore ever runs (the trace holds
mutate and pack events only), all three manifests are left mutated on disk
while the originals differ, no upload happens, and the run crashes instead
of reporting a per-package error — contradicting the claim that restoration
runs on every exit path and the other packages complete. -/
theorem c1_pack_throw_skips_restore :
    (publishRun envPackFail).trace
      = [.mutate "a", .mutate "b", .mutate "c", .packOk "a", .packFail "b"]
    ∧ (publishRun envPackFail).fs "a/package.json" = "MUTATED"
    ∧ (publishRun envPackFail).fs "b/package.json" = "MUTATED"
    ∧ (publishRun envPackFail).fs "c/package.json" = "MUTATED"
    ∧ envPackFail.fs "b/package.json" = "ORIGINAL"
    ∧ (∃ e, (publishRun envPackFail).outcome = .crashed e) := by
  exact ⟨by decide, rfl, rfl, rfl, rfl, ⟨_, rfl⟩⟩

/-- C2 (confirmed): when an object already sits at the storage key and every
stored object carries a recorded checksum (which every put through this
handler records), the upload handler leaves the store byte-for-byte
unchanged whatever the incoming bytes and checksum are, and — once form
validation and the identity check pass — rejects with a 409 conflict
carrying the existing object's recorded checksum in hex. -/
theorem c2_put_conflict_on_existing :
    ∀ (sha256Of : List Nat → List Nat) (authLogin username : String)
    (org : Option String) (pn ver : String) (tarball : List Nat)
    (sha256Field : String) (store : Store) (existing : R2Object),
    StoreWF store →
    storeFind store (storageKey username org pn ver) = some existing →
    (handlePost sha256Of authLogin username org pn ver tarball sha256Field
        store).2 = store
    ∧ (tarball.length ≤ 1024 * 1024 * 10 → sha256Field.length = 64 →
        authLogin = username →
        ∃ cs, existing.sha256 = some cs ∧
          (handlePost sha256Of authLogin username org pn ver tarball sha256Field
              store).1
            = .conflict (conflictMsg org pn ver) (bytesToHex cs)) := by
  intro sha256Of authLogin username org pn ver tarball sha256Field store
    existing hwf hfind
  obtain ⟨pr, hpr, hpr2⟩ := Option.map_eq_some'.mp hfind
  have hin := List.mem_of_find?_eq_some hpr
  have hsome := hwf pr hin
  obtain ⟨cs, hcs⟩ := Option.isSome_iff_exists.mp hsome
  have hexcs : existing.sha256 = some cs := by rw [← hpr2]; exact hcs
  constructor
  · by_cases h1 : validForm tarball.length sha256Field
    · by_cases h2 : authLogin = username
      · simp [handlePost, h1, h2, hfind, hexcs]
      · simp [handlePost, h1, h2]
    · simp [handlePost, h1]
  · intro hlen hsha hauth
    have h1 : validForm tarball.length sha256Field = true := by
      simp [validForm, hlen, hsha]
    refine ⟨cs, hexcs, ?_⟩
    simp [handlePost, h1, hauth, hfind, hexcs]

/-- Witness for C2 at a concrete store holding one object with checksum
byte `0xab`: the store is unchanged and the response is the 409 conflict
carrying `ab`. -/
theorem c2_put_conflict_on_existing_witness :
    (handlePost (fun _ => []) "alice" "alice" none "pkg" "1" [1, 2] sha64zeros
        store0).2 = store0
    ∧ ∃ cs, obj0.sha256 = some cs ∧
        (handlePost (fun _ => []) "alice" "alice" none "pkg" "1" [1, 2]
            sha64zeros store0).1
          = .conflict (conflictMsg none "pkg" "1") (bytesToHex cs) := by
  have h := c2_put_conflict_on_existing (fun _ => []) "alice" "alice" none
    "pkg" "1" [1, 2] sha64zeros store0 obj0 (by decide) (by decide)
  exact ⟨h.1, h.2 (by decide) (by decide) rfl⟩

/-- C3 (confirmed): for every manifest, dependency map, serializer and
filesystem, applying the rewrite (which writes the mutated serialization)
and then invoking the returned restore closure reproduces the filesystem
exactly: the manifest file again holds its captured original byte content,
verbatim, and no other path changed. -/
theorem c3_restore_reproduces_original :
    ∀ (stringify : PackageJson → String) (fs : String → String)
    (pJsonPath : String) (pJson : PackageJson)
    (deps : List (String × String)) (p : String),
    ((writeDeps stringify fs pJsonPath (fs pJsonPath) pJson deps).2
      ((writeDeps stringify fs pJsonPath (fs pJsonPath) pJson deps).1)) p
      = fs p := by
  intro stringify fs pJsonPath pJson deps p
  simp only [writeDeps, writeFileFS]
  by_cases h : p = pJsonPath
  · simp [h]
  · simp [h]

/-- C4 (code bug): on nonzero exit `pack` does throw a packing failure
carrying the captured output; but on zero exit with the expected output
file missing, the uncaught rejection of `stat(filename)` fires first, so
the failure is a plain filesystem error and never the distinct
`Pack command returned success but no output file was found` signal. -/
theorem c4_pack_failure_paths :
    pack (fun _ => "deadbeef") .npm "pkgdir" "pkg-1.0.0" ⟨1, "npm ERR", ""⟩
        (some [1]) (some 1)
      = .error (.packingFailed ("Failed to pack pkgdir with npm" ++
          (if (("npm ERR" : String) ++ "").trim ≠ "" then
            ":\n" ++ (("npm ERR" : String) ++ "").trim else "")))
    ∧ pack (fun _ => "deadbeef") .npm "pkgdir" "pkg-1.0.0" ⟨0, "", ""⟩ none none
      = .error .statEnoent
    ∧ PackError.statEnoent ≠ PackError.invariantViolation := by
  exact ⟨rfl, rfl, by decide⟩

/-- C5 (confirmed): the scoped coordinate `{owner a, name b, version 1}`
and the unscoped coordinate `{name a__b, version 1}` give distinct keys for
every identity, and in general a scoped and an unscoped coordinate obeying
the parameter charsets can never produce the same storage key. -/
theorem c5_storage_key_disjoint :
    (∀ u : String,
      storageKey u (some "a") "b" "1" ≠ storageKey u none "a__b" "1")
    ∧ (∀ u₁ u₂ org pn₁ pn₂ v₁ v₂ : String,
        ValidUsername u₁ → ValidUsername u₂ → ValidSegment org →
        ValidSegment pn₁ → ValidSegment pn₂ → ValidSegment v₁ →
        ValidSegment v₂ →
        storageKey u₁ (some org) pn₁ v₁ ≠ storageKey u₂ none pn₂ v₂) := by
  constructor
  · intro u h
    have h2 := congrArg String.length h
    simp only [storageKey, String.length_append,
      show ("a" : String).length = 1 from rfl,
      show ("b" : String).length = 1 from rfl,
      show ("1" : String).length = 1 from rfl,
      show ("@" : String).length = 1 from rfl,
      show ("__" : String).length = 2 from rfl,
      show ("a__b" : String).length = 4 from rfl,
      show ("/" : String).length = 1 from rfl] at h2
    omega
  · intro u₁ u₂ org pn₁ pn₂ v₁ v₂ hu₁ hu₂ _ _ hpn₂ _ _ h
    have hd := congrArg String.data h
    simp only [storageKey, String.data_append, List.append_assoc,
      show ("/" : String).data = ['/'] from rfl,
      show ("@" : String).data = ['@'] from rfl,
      show ("__" : String).data = ['_', '_'] from rfl,
      List.singleton_append, List.cons_append, List.nil_append,
      List.cons.injEq, true_and] at hd
    have hsplit := append_slash_inj u₁.data u₂.data _ _
      (username_no_slash hu₁) (username_no_slash hu₂) hd
    have hx := hsplit.2
    obtain ⟨c, cs, hcons⟩ : ∃ c cs, pn₂.data = c :: cs := by
      cases hc : pn₂.data with
      | nil => exact absurd (String.ext hc) hpn₂.1
      | cons c cs => exact ⟨c, cs, rfl⟩
    rw [hcons, List.cons_append] at hx
    have hhead : '@' = c := by
      have := congrArg List.head? hx
      simpa using this
    have hcmem : c ∈ pn₂.data := by
      rw [hcons]
      exact List.mem_cons_self c cs
    have hcls := hpn₂.2.2 c hcmem
    rw [← hhead] at hcls
    exact absurd hcls (by decide)

/-- Witness for C5: the literal example of the claim, and a charset-valid
scoped/unscoped pair, both at concrete identities. -/
theorem c5_storage_key_disjoint_witness :
    storageKey "alice" (some "a") "b" "1" ≠ storageKey "alice" none "a__b" "1"
    ∧ storageKey "bob" (some "a") "b" "1" ≠ storageKey "bob" none "ab" "1" := by
  exact ⟨c5_storage_key_disjoint.1 "alice",
    c5_storage_key_disjoint.2 "bob" "bob" "a" "b" "ab" "1" "1"
      (by decide) (by decide) (by decide) (by decide) (by decide) (by decide)
      (by decide)⟩

/-- C6 (confirmed): with a dependency map of distinct keys (a JavaScript
`Map` invariant), the manifest rewrite redirects, in each of the runtime,
development and optional classes independently, exactly the entries whose
name is a key of the map — each to its mapped URL — and never touches the
peer-dependency class. -/
theorem c6_rewrite_classes :
    ∀ (pJson : PackageJson) (deps : List (String × String)),
    (deps.map Prod.fst).Nodup →
    (rewriteManifest pJson deps).dependencies
        = specRewriteClass deps pJson.dependencies
    ∧ (rewriteManifest pJson deps).devDependencies
        = specRewriteClass deps pJson.devDependencies
    ∧ (rewriteManifest pJson deps).optionalDependencies
        = specRewriteClass deps pJson.optionalDependencies
    ∧ (rewriteManifest pJson deps).peerDependencies
        = pJson.peerDependencies := by
  intro pJson deps h
  exact ⟨hijackDeps_eq_spec deps _ h, hijackDeps_eq_spec deps _ h,
    hijackDeps_eq_spec deps _ h, rfl⟩

/-- Witness for C6 at a concrete manifest with all four classes: the three
rewritable classes match the declarative rewrite, the listed `pb` entries
now hold the mapped URL, and the peer class is untouched. -/
theorem c6_rewrite_classes_witness :
    (rewriteManifest cPJson cDeps).dependencies
        = specRewriteClass cDeps cPJson.dependencies
    ∧ (rewriteManifest cPJson cDeps).peerDependencies = cPJson.peerDependencies
    ∧ (rewriteManifest cPJson cDeps).dependencies
        = some [("pb", "https://pkg.rx2.dev/alice/pb@v1"), ("x", "^1.0.0")]
    ∧ (rewriteManifest cPJson cDeps).peerDependencies
        = some [("pb", "workspace:peer")] := by
  have h := c6_rewrite_classes cPJson cDeps (by decide)
  exact ⟨h.1, h.2.2.2, by decide, by decide⟩

/-- C7 (confirmed): when a surviving candidate `c` named `name` is followed
only by candidates that do not survive under that name, the dependency map
built by PASS 1 maps `name` to the URL derived from `c` — the candidate
discovered last with that name — whatever came before. -/
theorem c7_last_discovered_wins :
    ∀ (base user ver : String)
    (pre post : List (String × Option PackageJson))
    (c : String × Option PackageJson) (name : String) (pJson : PackageJson),
    survivingPackage c.2 = some (name, pJson) →
    (∀ c2 ∈ post, ∀ np : String × PackageJson,
      survivingPackage c2.2 = some np → np.1 ≠ name) →
    mapGet (pass1 base user ver (pre ++ c :: post)).2 name
      = some (mkPackageUrl base user name ver) := by
  intro base user ver pre post c name pJson hc hpost
  rw [pass1_snd, List.foldl_append, List.foldl_cons]
  rw [depsStep_preserve base user ver name post hpost]
  simp only [depsStep, hc]
  exact mapGet_mapSet_self _ name _

/-- Witness for C7: two discovered candidates both named `dup`; the built
map holds the URL derived from the one discovered last. -/
theorem c7_last_discovered_wins_witness :
    mapGet (pass1 apiUrlBase "alice" "v1" [dupCand1, dupCand2]).2 "dup"
      = some (mkPackageUrl apiUrlBase "alice" "dup" "v1") := by
  have h := c7_last_discovered_wins apiUrlBase "alice" "v1" [dupCand1] []
    dupCand2 "dup" ⟨some "dup", some "2.0.0", none, none, none, none, none⟩
    rfl (by simp)
  simpa using h

/-- C8 counterexample: a stored object whose checksum metadata is missing
is still served with a 200 and its bytes — the fetch handler does not
return a not-found signal in that case, falsifying the claim's second
disjunct at this concrete store. -/
theorem c8_fetch_counterexample :
    objNoChecksum.sha256 = none
    ∧ storeFind storeNoChecksum (storageKey "u" none "p" "1")
        = some objNoChecksum
    ∧ handleGet storeNoChecksum "u" none "p" "1"
        = .ok [1, 2, 3] "application/tar+gzip"
    ∧ handleGet storeNoChecksum "u" none "p" "1" ≠ .notFound := by
  exact ⟨rfl, by decide, by decide, by decide⟩

/-- C8 amended (corrected): the fetch handler returns the stored bytes with
the binary content type `application/tar+gzip` whenever an object is
present at the storage key, and a not-found signal exactly when no object
is present; the stored checksum metadata is not consulted. -/
theorem c8_fetch_amended :
    ∀ (store : Store) (username : String) (org : Option String)
    (pn ver : String),
    (storeFind store (storageKey username org pn ver) = none →
      handleGet store username org pn ver = .notFound)
    ∧ (∀ o, storeFind store (storageKey username org pn ver) = some o →
      handleGet store username org pn ver = .ok o.body "application/tar+gzip") := by
  intro store username org pn ver
  constructor
  · intro h
    simp [handleGet, h]
  · intro o h
    simp [handleGet, h]

/-- Witness for the amended C8 at two concrete stores: present object
served with its bytes, absent key not found. -/
theorem c8_fetch_amended_witness :
    handleGet store0 "alice" none "pkg" "1" = .ok [9] "application/tar+gzip"
    ∧ handleGet [] "alice" none "pkg" "1" = .notFound := by
  exact ⟨(c8_fetch_amended store0 "alice" none "pkg" "1").2 obj0 (by decide),
    (c8_fetch_amended [] "alice" none "pkg" "1").1 rfl⟩

/-- C9 (confirmed): with credentials present and no explicit version, a
failing `git rev-parse HEAD` aborts the whole run before any package is
processed (empty trace, filesystem untouched, no version resolved), and a
succeeding one makes the run use the first seven characters of the trimmed
revision as the publishing version. -/
theorem c9_version_resolution :
    ∀ (env : PublishEnv) (c : Credentials), env.credentials = some c →
    env.explicitVersion = none →
    (env.gitRevParse.exitCode ≠ 0 →
      publishRun env = ⟨[], env.fs, .versionFailed, none⟩)
    ∧ (env.gitRevParse.exitCode = 0 →
      (publishRun env).version
        = some ((env.gitRevParse.stdout.trim).take 7)) := by
  intro env c hc hv
  constructor
  · intro hg
    simp [publishRun, hc, hv, hg]
  · intro hg
    simp only [publishRun, hc, hv, hg]
    simp only [ne_eq, not_true_eq_false, if_neg, ite_false, if_false]
    split
    · rfl
    · split
      · rfl
      · rfl

/-- Witness for C9 at two concrete environments: the failing-git run ends
with the version-failed outcome, an empty trace and the untouched
filesystem; the succeeding-git run resolves the 7-character short hash. -/
theorem c9_version_resolution_witness :
    publishRun envGitFail = ⟨[], envGitFail.fs, .versionFailed, none⟩
    ∧ (publishRun envGitOk).version
        = some ((envGitOk.gitRevParse.stdout.trim).take 7) := by
  exact ⟨(c9_version_resolution envGitFail ⟨"tok"⟩ rfl rfl).1 (by decide),
    (c9_version_resolution envGitOk ⟨"tok"⟩ rfl rfl).2 rfl⟩

/-- C10 (confirmed): a tarball over `1024 * 1024 * 10` bytes or a sha256
form field whose length is not 64 makes the upload route answer the 400
validation error with the store unchanged — for every authenticated login
and every store, so neither authentication nor storage is consulted. -/
theorem c10_form_validation :
    ∀ (sha256Of : List Nat → List Nat) (authLogin username : String)
    (org : Option String) (pn ver : String) (tarball : List Nat)
    (sha256Field : String) (store : Store),
    1024 * 1024 * 10 < tarball.length ∨ sha256Field.length ≠ 64 →
    handlePost sha256Of authLogin username org pn ver tarball sha256Field store
      = (.badRequest "Invalid package format", store) := by
  intro sha256Of authLogin username org pn ver tarball sha256Field store h
  have hv : validForm tarball.length sha256Field = false := by
    simp only [validForm, Bool.and_eq_false_iff, decide_eq_false_iff_not,
      not_le, beq_eq_false_iff_ne, ne_eq]
    rcases h with h | h
    · exact Or.inl h
    · exact Or.inr h
  simp [handlePost, hv]

/-- Witness for C10: a two-character sha256 field is rejected with the 400
validation response and an unchanged (empty) store, even though the login
does not match the target user. -/
theorem c10_form_validation_witness :
    handlePost (fun _ => []) "alice" "bob" none "pkg" "1" [1] "ff" []
      = (.badRequest "Invalid package format", []) := by
  exact c10_form_validation (fun _ => []) "alice" "bob" none "pkg" "1" [1]
    "ff" [] (Or.inr (by decide))

end PreviewPkg
